import Mathlib

/-!
Verification of the tonerow_analyzer core (twelve-tone row analysis).

Shallow embedding conventions:
  * a pitch sequence is a `List Int`; Python integer `%` on a positive
    modulus agrees with `Int.emod`, so `x % 12` below matches the source;
  * a `ToneRow` object stores only its matrix, so the embedded class
    methods take the 12×12 matrix (a `List (List Int)`) as argument;
  * numpy array reads `a[i]` become `List.getD i 0` (indices are always
    in range where the functions are used on valid rows), `a[-1]` becomes
    `List.getLastD 0`, slices become `take`, `drop`, and `reverse`;
  * Python `set(...)` becomes `List.toFinset`;
  * raising `ValueError` becomes returning `Except.error` with the
    message of the source.
-/

/-- The Lean image of Python `set(range(12))`: the list `[0, ..., 11]`. -/
def pcList : List Int := (List.range 12).map (fun n => (n : Int))

/-- The set of the twelve pitch classes, as a finite set of integers. -/
def pcFinset : Finset Int := pcList.toFinset

/-- Embedding of `ToneRow.is_valid_tonerow`: exactly 12 elements, and the
value set equals `set(range(12))`. -/
def is_valid_tonerow (toneRow : List Int) : Bool :=
  toneRow.length == 12 && decide (toneRow.toFinset = pcFinset)

/-- Embedding of `inversion_row = (-primeRow) % 12` (elementwise numpy
operation inside `ToneRow.twelvetone_matrix`). -/
def inversion_row (primeRow : List Int) : List Int :=
  primeRow.map (fun x => (-x) % 12)

/-- Embedding of `transposition_interval = (inversion_row[i] - inversion_row[0]) % 12`
computed in the loop of `ToneRow.twelvetone_matrix`. -/
def transposition_interval (primeRow : List Int) (i : Nat) : Int :=
  ((inversion_row primeRow).getD i 0 - (inversion_row primeRow).getD 0 0) % 12

/-- Embedding of `ToneRow.twelvetone_matrix`: row 0 is the prime row
verbatim; for i in `range(1, 12)` row i is the prime row transposed by
`transposition_interval` (everything mod 12). -/
def twelvetone_matrix (primeRow : List Int) : List (List Int) :=
  primeRow ::
    (List.range' 1 11).map (fun i =>
      primeRow.map (fun x => (x + transposition_interval primeRow i) % 12))

/-- Column `j` of the matrix, the embedding of the numpy slice `matrix[:, j]`. -/
def matrix_column (matrix : List (List Int)) (j : Nat) : List Int :=
  matrix.map (fun row => row.getD j 0)

/-- Embedding of `ToneRow.prime_row`: first row of the matrix. -/
def ToneRow.prime_row (matrix : List (List Int)) : List Int :=
  matrix.getD 0 []

/-- Embedding of `ToneRow.inversion`: first column of the matrix. -/
def ToneRow.inversion (matrix : List (List Int)) : List Int :=
  matrix_column matrix 0

/-- Embedding of `ToneRow.retrograde`: first row of the matrix backwards. -/
def ToneRow.retrograde (matrix : List (List Int)) : List Int :=
  (matrix.getD 0 []).reverse

/-- Embedding of `ToneRow.retrograde_inversion`: first column backwards. -/
def ToneRow.retrograde_inversion (matrix : List (List Int)) : List Int :=
  (matrix_column matrix 0).reverse

/-- Embedding of `ToneRow.__init__`: validate, then build and store the
matrix; an invalid row raises `ValueError`. -/
def ToneRow.construct (primeRow : List Int) : Except String (List (List Int)) :=
  if is_valid_tonerow primeRow then Except.ok (twelvetone_matrix primeRow)
  else Except.error "provided tone row is not valid"

/-- Embedding of `ToneRow.transpose_row`.  In the source
`transposed_tonerow = primeRow` aliases the argument array and the numpy
operators `+=` and `%=` update that array in place, so the function
returns the very same buffer it mutated.  The embedding returns the pair
(returned array contents, contents of the caller's `primeRow` buffer
after the call); because of the aliasing both components are the
transposed values. -/
def transpose_row (primeRow : List Int) (intervalSize : Int) :
    Except String (List Int × List Int) :=
  if ¬ (is_valid_tonerow primeRow = true) then
    Except.error "provided tone row is not valid"
  else if intervalSize < -11 ∨ intervalSize > 11 then
    Except.error "Interval size must be between -11 and 11"
  else
    let converted_interval_size : Int := (intervalSize + 12) % 12
    let transposed_tonerow := primeRow.map (fun x => (x + converted_interval_size) % 12)
    Except.ok (transposed_tonerow, transposed_tonerow)

/-- The identity row, used as concrete test input. -/
def identity_row : List Int := [0, 1, 2, 3, 4, 5, 6, 7, 8, 9, 10, 11]

/-- A valid row that does not start on pitch class 0. -/
def shifted_row : List Int := [1, 0, 2, 3, 4, 5, 6, 7, 8, 9, 10, 11]

-- ## Combinatoriality detectors (code side)

/-- Embedding of `CombinatorialHexachords.prime_combinatorials`: scan the
matrix rows, keep a row when its first hexachord set has empty
intersection with the first hexachord of P0 (`isdisjoint`) and its
transposition level is nonzero, and emit `P<level>`. -/
def CombinatorialHexachords.prime_combinatorials (matrix : List (List Int)) : List String :=
  let first_note_p0 := (ToneRow.prime_row matrix).getD 0 0
  let first_hexachord_p0 := ((matrix.getD 0 []).take 6).toFinset
  matrix.filterMap (fun prime_row =>
    let first_hexachord_prime := (prime_row.take 6).toFinset
    if first_hexachord_prime ∩ first_hexachord_p0 = ∅ then
      let transposition_level := (prime_row.getD 0 0 - first_note_p0 + 12) % 12
      if transposition_level = 0 then none
      else some ("P" ++ toString transposition_level)
    else none)

/-- Embedding of `CombinatorialHexachords.retrograde_combinatorials`: the
source takes `set(prime_row[6:])` as the hexachord and `prime_row[-1]` as
the first note of the retrograde form. -/
def CombinatorialHexachords.retrograde_combinatorials (matrix : List (List Int)) : List String :=
  let first_note_r0 := (ToneRow.retrograde matrix).getD 0 0
  let first_hexachord_p0 := ((matrix.getD 0 []).take 6).toFinset
  matrix.filterMap (fun prime_row =>
    let first_hexachord_retrograde := (prime_row.drop 6).toFinset
    if first_hexachord_retrograde ∩ first_hexachord_p0 = ∅ then
      let transposition_level := (prime_row.getLastD 0 - first_note_r0 + 12) % 12
      if transposition_level = 0 then none
      else some ("R" ++ toString transposition_level)
    else none)

/-- Embedding of `CombinatorialHexachords.inversion_combinatorials`:
scan the matrix columns. -/
def CombinatorialHexachords.inversion_combinatorials (matrix : List (List Int)) : List String :=
  let first_note_i0 := (ToneRow.inversion matrix).getD 0 0
  let first_hexachord_p0 := ((matrix.getD 0 []).take 6).toFinset
  (List.range matrix.length).filterMap (fun col_index =>
    let inversion_form := matrix_column matrix col_index
    let first_hexachord_inversion := (inversion_form.take 6).toFinset
    if first_hexachord_inversion ∩ first_hexachord_p0 = ∅ then
      let inversion_level := (inversion_form.getD 0 0 - first_note_i0 + 12) % 12
      if inversion_level = 0 then none
      else some ("I" ++ toString inversion_level)
    else none)

/-- Embedding of `CombinatorialHexachords.retrograde_inversion_combinatorials`:
scan the reversed matrix columns. -/
def CombinatorialHexachords.retrograde_inversion_combinatorials (matrix : List (List Int)) : List String :=
  let first_note_ri0 := (ToneRow.retrograde_inversion matrix).getD 0 0
  let first_hexachord_p0 := ((matrix.getD 0 []).take 6).toFinset
  (List.range matrix.length).filterMap (fun col_index =>
    let ri_form := (matrix_column matrix col_index).reverse
    let first_hexachord_ri := (ri_form.take 6).toFinset
    if first_hexachord_ri ∩ first_hexachord_p0 = ∅ then
      let ri_level := (ri_form.getD 0 0 - first_note_ri0 + 12) % 12
      if ri_level = 0 then none
      else some ("RI" ++ toString ri_level)
    else none)

/-- Embedding of the unrolled tetrachord matching of the source: find an
equal candidate for the first reference tetrachord and remove it
(`list.remove` removes the first equal element), do the same for the
second, then require exactly one candidate left and equal to the third. -/
def tet_match (t1 t2 t3 : Finset Int) (cands : List (Finset Int)) : Bool :=
  if t1 ∈ cands then
    if t2 ∈ cands.erase t1 then
      if ((cands.erase t1).erase t2).length = 1 then
        decide (t3 = ((cands.erase t1).erase t2).getD 0 ∅)
      else false
    else false
  else false

/-- Embedding of the unrolled trichord matching of the source: greedy
removal for the first three reference trichords, then the single
remaining candidate must equal the fourth. -/
def tri_match (t1 t2 t3 t4 : Finset Int) (cands : List (Finset Int)) : Bool :=
  if t1 ∈ cands then
    if t2 ∈ cands.erase t1 then
      if t3 ∈ (cands.erase t1).erase t2 then
        if (((cands.erase t1).erase t2).erase t3).length = 1 then
          decide (t4 = (((cands.erase t1).erase t2).erase t3).getD 0 ∅)
        else false
      else false
    else false
  else false

/-- Embedding of `CombinatorialTetrachords.prime_combinatorials`. -/
def CombinatorialTetrachords.prime_combinatorials (matrix : List (List Int)) : List String :=
  let first_note_p0 := (ToneRow.prime_row matrix).getD 0 0
  let first_tetrachord_p0 := ((matrix.getD 0 []).take 4).toFinset
  let second_tetrachord_p0 := (((matrix.getD 0 []).drop 4).take 4).toFinset
  let third_tetrachord_p0 := (((matrix.getD 0 []).drop 8).take 4).toFinset
  matrix.filterMap (fun prime_row_transposition =>
    if tet_match first_tetrachord_p0 second_tetrachord_p0 third_tetrachord_p0
        [(prime_row_transposition.take 4).toFinset,
         ((prime_row_transposition.drop 4).take 4).toFinset,
         ((prime_row_transposition.drop 8).take 4).toFinset] then
      let transposition_level := (prime_row_transposition.getD 0 0 - first_note_p0 + 12) % 12
      if transposition_level = 0 then none
      else some ("P" ++ toString transposition_level)
    else none)

/-- Embedding of `CombinatorialTetrachords.retrograde_combinatorials`:
the source reverses each row and slices the reversed form. -/
def CombinatorialTetrachords.retrograde_combinatorials (matrix : List (List Int)) : List String :=
  let first_note_r0 := (ToneRow.retrograde matrix).getD 0 0
  let first_tetrachord_p0 := ((matrix.getD 0 []).take 4).toFinset
  let second_tetrachord_p0 := (((matrix.getD 0 []).drop 4).take 4).toFinset
  let third_tetrachord_p0 := (((matrix.getD 0 []).drop 8).take 4).toFinset
  matrix.filterMap (fun prime_row_transposition =>
    let retrograde_form := prime_row_transposition.reverse
    if tet_match first_tetrachord_p0 second_tetrachord_p0 third_tetrachord_p0
        [(retrograde_form.take 4).toFinset,
         ((retrograde_form.drop 4).take 4).toFinset,
         ((retrograde_form.drop 8).take 4).toFinset] then
      let retrograde_level := (retrograde_form.getD 0 0 - first_note_r0 + 12) % 12
      if retrograde_level = 0 then none
      else some ("R" ++ toString retrograde_level)
    else none)

/-- Embedding of `CombinatorialTetrachords.inversion_combinatorials`:
scans the matrix columns and does not exclude level 0. -/
def CombinatorialTetrachords.inversion_combinatorials (matrix : List (List Int)) : List String :=
  let first_note_i0 := (ToneRow.inversion matrix).getD 0 0
  let first_tetrachord_p0 := ((matrix.getD 0 []).take 4).toFinset
  let second_tetrachord_p0 := (((matrix.getD 0 []).drop 4).take 4).toFinset
  let third_tetrachord_p0 := (((matrix.getD 0 []).drop 8).take 4).toFinset
  (List.range matrix.length).filterMap (fun col_index =>
    let inversion_form := matrix_column matrix col_index
    if tet_match first_tetrachord_p0 second_tetrachord_p0 third_tetrachord_p0
        [(inversion_form.take 4).toFinset,
         ((inversion_form.drop 4).take 4).toFinset,
         ((inversion_form.drop 8).take 4).toFinset] then
      some ("I" ++ toString ((inversion_form.getD 0 0 - first_note_i0 + 12) % 12))
    else none)

/-- Embedding of `CombinatorialTetrachords.retrograde_inversion_combinatorials`:
scans the reversed matrix columns and does not exclude level 0. -/
def CombinatorialTetrachords.retrograde_inversion_combinatorials (matrix : List (List Int)) : List String :=
  let first_note_ri0 := (ToneRow.retrograde_inversion matrix).getD 0 0
  let first_tetrachord_p0 := ((matrix.getD 0 []).take 4).toFinset
  let second_tetrachord_p0 := (((matrix.getD 0 []).drop 4).take 4).toFinset
  let third_tetrachord_p0 := (((matrix.getD 0 []).drop 8).take 4).toFinset
  (List.range matrix.length).filterMap (fun col_index =>
    let ri_form := (matrix_column matrix col_index).reverse
    if tet_match first_tetrachord_p0 second_tetrachord_p0 third_tetrachord_p0
        [(ri_form.take 4).toFinset,
         ((ri_form.drop 4).take 4).toFinset,
         ((ri_form.drop 8).take 4).toFinset] then
      some ("RI" ++ toString ((ri_form.getD 0 0 - first_note_ri0 + 12) % 12))
    else none)

/-- Embedding of `CombinatorialTrichords.prime_combinatorials`. -/
def CombinatorialTrichords.prime_combinatorials (matrix : List (List Int)) : List String :=
  let first_note_p0 := (ToneRow.prime_row matrix).getD 0 0
  let first_trichord_p0 := ((matrix.getD 0 []).take 3).toFinset
  let second_trichord_p0 := (((matrix.getD 0 []).drop 3).take 3).toFinset
  let third_trichord_p0 := (((matrix.getD 0 []).drop 6).take 3).toFinset
  let fourth_trichord_p0 := (((matrix.getD 0 []).drop 9).take 3).toFinset
  matrix.filterMap (fun prime_row_transposition =>
    if tri_match first_trichord_p0 second_trichord_p0 third_trichord_p0 fourth_trichord_p0
        [(prime_row_transposition.take 3).toFinset,
         ((prime_row_transposition.drop 3).take 3).toFinset,
         ((prime_row_transposition.drop 6).take 3).toFinset,
         ((prime_row_transposition.drop 9).take 3).toFinset] then
      let transposition_level := (prime_row_transposition.getD 0 0 - first_note_p0 + 12) % 12
      if transposition_level = 0 then none
      else some ("P" ++ toString transposition_level)
    else none)

/-- Embedding of `CombinatorialTrichords.retrograde_combinatorials`. -/
def CombinatorialTrichords.retrograde_combinatorials (matrix : List (List Int)) : List String :=
  let first_note_r0 := (ToneRow.retrograde matrix).getD 0 0
  let first_trichord_p0 := ((matrix.getD 0 []).take 3).toFinset
  let second_trichord_p0 := (((matrix.getD 0 []).drop 3).take 3).toFinset
  let third_trichord_p0 := (((matrix.getD 0 []).drop 6).take 3).toFinset
  let fourth_trichord_p0 := (((matrix.getD 0 []).drop 9).take 3).toFinset
  matrix.filterMap (fun prime_row_transposition =>
    let retrograde_form := prime_row_transposition.reverse
    if tri_match first_trichord_p0 second_trichord_p0 third_trichord_p0 fourth_trichord_p0
        [(retrograde_form.take 3).toFinset,
         ((retrograde_form.drop 3).take 3).toFinset,
         ((retrograde_form.drop 6).take 3).toFinset,
         ((retrograde_form.drop 9).take 3).toFinset] then
      let retrograde_level := (retrograde_form.getD 0 0 - first_note_r0 + 12) % 12
      if retrograde_level = 0 then none
      else some ("R" ++ toString retrograde_level)
    else none)

/-- Embedding of `CombinatorialTrichords.inversion_combinatorials`:
scans the matrix columns and does not exclude level 0. -/
def CombinatorialTrichords.inversion_combinatorials (matrix : List (List Int)) : List String :=
  let first_note_i0 := (ToneRow.inversion matrix).getD 0 0
  let first_trichord_p0 := ((matrix.getD 0 []).take 3).toFinset
  let second_trichord_p0 := (((matrix.getD 0 []).drop 3).take 3).toFinset
  let third_trichord_p0 := (((matrix.getD 0 []).drop 6).take 3).toFinset
  let fourth_trichord_p0 := (((matrix.getD 0 []).drop 9).take 3).toFinset
  (List.range matrix.length).filterMap (fun col_index =>
    let inversion_form := matrix_column matrix col_index
    if tri_match first_trichord_p0 second_trichord_p0 third_trichord_p0 fourth_trichord_p0
        [(inversion_form.take 3).toFinset,
         ((inversion_form.drop 3).take 3).toFinset,
         ((inversion_form.drop 6).take 3).toFinset,
         ((inversion_form.drop 9).take 3).toFinset] then
      some ("I" ++ toString ((inversion_form.getD 0 0 - first_note_i0 + 12) % 12))
    else none)

/-- Embedding of `CombinatorialTrichords.retrograde_inversion_combinatorials`:
scans the reversed matrix columns and does not exclude level 0. -/
def CombinatorialTrichords.retrograde_inversion_combinatorials (matrix : List (List Int)) : List String :=
  let first_note_ri0 := (ToneRow.retrograde_inversion matrix).getD 0 0
  let first_trichord_p0 := ((matrix.getD 0 []).take 3).toFinset
  let second_trichord_p0 := (((matrix.getD 0 []).drop 3).take 3).toFinset
  let third_trichord_p0 := (((matrix.getD 0 []).drop 6).take 3).toFinset
  let fourth_trichord_p0 := (((matrix.getD 0 []).drop 9).take 3).toFinset
  (List.range matrix.length).filterMap (fun col_index =>
    let ri_form := (matrix_column matrix col_index).reverse
    if tri_match first_trichord_p0 second_trichord_p0 third_trichord_p0 fourth_trichord_p0
        [(ri_form.take 3).toFinset,
         ((ri_form.drop 3).take 3).toFinset,
         ((ri_form.drop 6).take 3).toFinset,
         ((ri_form.drop 9).take 3).toFinset] then
      some ("RI" ++ toString ((ri_form.getD 0 0 - first_note_ri0 + 12) % 12))
    else none)

-- ## Spec-side characterisations of the detectors

/-- Level of a candidate form against a reference form, in the words of
the spec: (first note of the candidate minus first note of the
reference, plus 12) mod 12. -/
def level_of (form ref : List Int) : Int :=
  (form.getD 0 0 - ref.getD 0 0 + 12) % 12

/-- Spec statement of the hexachordal detector for one operation kind:
the candidate at index c is emitted with its level exactly when the set
of its first six elements is disjoint from the set of the first six
elements of P0 and the level is not 0. -/
def hexDetectSpec (matrix : List (List Int)) (kind : String)
    (candidate : Nat → List Int) (ref : List Int) : List String :=
  (List.range 12).filterMap (fun c =>
    let form := candidate c
    let t := level_of form ref
    if Disjoint (form.take 6).toFinset ((matrix.getD 0 []).take 6).toFinset ∧ t ≠ 0
    then some (kind ++ toString t) else none)

/-- Ordered partition of a 12-element row into consecutive segments of
size k, each segment taken as a set (spec section 4.2). -/
def partitionSegments (k : Nat) (row : List Int) : List (Finset Int) :=
  (List.range (12 / k)).map (fun s => ((row.drop (k * s)).take k).toFinset)

/-- Spec statement of the tetrachordal and trichordal detectors for one
operation kind: the candidate at index c is emitted with its level
exactly when its ordered partition into consecutive k-element segment
sets is the same unordered collection of sets as the partition of P0,
with level 0 additionally excluded when `excludeZero` is set. -/
def chordDetectSpec (matrix : List (List Int)) (k : Nat) (kind : String)
    (candidate : Nat → List Int) (ref : List Int) (excludeZero : Bool) : List String :=
  (List.range 12).filterMap (fun c =>
    let form := candidate c
    let t := level_of form ref
    if (partitionSegments k form : Multiset (Finset Int))
          = (partitionSegments k (matrix.getD 0 []) : Multiset (Finset Int))
        ∧ (excludeZero = true → t ≠ 0)
    then some (kind ++ toString t) else none)

-- ## Row enumerator

/-- All ways to pick one element out of a list, in position order: the
pairs (picked element, remaining elements). -/
def removals {α : Type} : List α → List (α × List α)
  | [] => []
  | x :: xs => (x, xs) :: (removals xs).map (fun p => (p.1, x :: p.2))

/-- All permutations of a list in the order produced by Python
`itertools.permutations`: the head is chosen from the input positions
left to right, then the rest recursively (lexicographic in input
positions).  The fuel argument equals the list length. -/
def lexPermsAux {α : Type} : Nat → List α → List (List α)
  | 0, _ => [[]]
  | n + 1, l => (removals l).flatMap (fun p => (lexPermsAux n p.2).map (fun q => p.1 :: q))

/-- Embedding of `itertools.permutations(l)` as a list. -/
def permutations_lex {α : Type} (l : List α) : List (List α) :=
  lexPermsAux l.length l

/-- Embedding of `remaining_pitches = list(range(1, 12))`. -/
def remaining_pitches : List Int := (List.range' 1 11).map (fun n => (n : Int))

/-- Embedding of `ToneRow.tonerows_starting_with_zero_iterator`, with the
lazily yielded sequence materialised as a list: every permutation of the
remaining pitches, prefixed by 0. -/
def tonerows_starting_with_zero : List (List Int) :=
  (permutations_lex remaining_pitches).map (fun perm => 0 :: perm)

-- ## Basic facts about validity and the matrix

theorem mem_pcFinset (v : Int) : v ∈ pcFinset ↔ 0 ≤ v ∧ v < 12 := by
  constructor
  · intro hv
    fin_cases hv <;> norm_num
  · rintro ⟨h0, h12⟩
    interval_cases v <;> decide

theorem valid_length {r : List Int} (h : is_valid_tonerow r = true) : r.length = 12 := by
  simp only [is_valid_tonerow, Bool.and_eq_true, beq_iff_eq, decide_eq_true_eq] at h
  exact h.1

theorem valid_toFinset {r : List Int} (h : is_valid_tonerow r = true) :
    r.toFinset = pcFinset := by
  simp only [is_valid_tonerow, Bool.and_eq_true, beq_iff_eq, decide_eq_true_eq] at h
  exact h.2

theorem valid_bounds {r : List Int} (h : is_valid_tonerow r = true) {j : Nat} (hj : j < 12) :
    0 ≤ r.getD j 0 ∧ r.getD j 0 < 12 := by
  have hlen : r.length = 12 := valid_length h
  have hj2 : j < r.length := by omega
  have hmem : r.getD j 0 ∈ r := by
    rw [List.getD_eq_getElem _ _ hj2]
    exact List.getElem_mem hj2
  have : r.getD j 0 ∈ pcFinset := by
    rw [← valid_toFinset h]
    exact List.mem_toFinset.mpr hmem
  exact (mem_pcFinset _).mp this

theorem valid_nodup {r : List Int} (h : is_valid_tonerow r = true) : r.Nodup := by
  have hlen : r.length = 12 := valid_length h
  have hcard : r.toFinset.card = 12 := by
    rw [valid_toFinset h]
    decide
  have hdedup : r.dedup.length = 12 := by
    rw [← List.card_toFinset]
    exact hcard
  have : r.dedup = r := (List.dedup_sublist r).eq_of_length (by omega)
  exact List.dedup_eq_self.mp this

theorem getD_map_eq (r : List Int) (f : Int → Int) (i : Nat) (hi : i < r.length) :
    (r.map f).getD i 0 = f (r.getD i 0) := by
  rw [List.getD_eq_getElem _ _ (by simpa using hi), List.getElem_map,
    List.getD_eq_getElem _ _ hi]

theorem inversion_row_getD {r : List Int} (i : Nat) (hi : i < r.length) :
    (inversion_row r).getD i 0 = (-(r.getD i 0)) % 12 :=
  getD_map_eq r _ i hi

theorem matrix_length (r : List Int) : (twelvetone_matrix r).length = 12 := by
  simp [twelvetone_matrix]

theorem matrix_row_zero (r : List Int) : (twelvetone_matrix r).getD 0 [] = r := rfl

theorem matrix_row_succ (r : List Int) (k : Nat) (hk : k < 11) :
    (twelvetone_matrix r).getD (k + 1) []
      = r.map (fun x => (x + transposition_interval r (k + 1)) % 12) := by
  simp only [twelvetone_matrix, List.getD_cons_succ]
  rw [List.getD_eq_getElem _ _ (by simpa using hk), List.getElem_map,
    List.getElem_range']
  have hidx : 1 + 1 * k = k + 1 := by omega
  rw [hidx]

theorem matrix_row_length {r : List Int} (hr : r.length = 12) {i : Nat} (hi : i < 12) :
    ((twelvetone_matrix r).getD i []).length = 12 := by
  cases i with
  | zero => exact hr
  | succ k =>
    have hk : k < 11 := by omega
    rw [matrix_row_succ r k hk]
    simpa using hr

theorem matrix_entry {r : List Int} (hr : is_valid_tonerow r = true)
    {i j : Nat} (hi : i < 12) (hj : j < 12) :
    ((twelvetone_matrix r).getD i []).getD j 0
      = (r.getD j 0 + transposition_interval r i) % 12 := by
  have hlen : r.length = 12 := valid_length hr
  cases i with
  | zero =>
    rw [matrix_row_zero]
    have h0 : transposition_interval r 0 = 0 := by
      simp [transposition_interval]
    rw [h0, add_zero,
      Int.emod_eq_of_lt (valid_bounds hr hj).1 (valid_bounds hr hj).2]
  | succ k =>
    have hk : k < 11 := by omega
    rw [matrix_row_succ r k hk, getD_map_eq r _ j (by omega)]

theorem toFinset_map_list (l : List Int) (f : Int → Int) :
    (l.map f).toFinset = l.toFinset.image f := by
  ext a
  simp only [List.mem_toFinset, List.mem_map, Finset.mem_image]

theorem image_shift (c : Int) : pcFinset.image (fun x => (x + c) % 12) = pcFinset := by
  have hsub : pcFinset.image (fun x => (x + c) % 12) ⊆ pcFinset := by
    intro v hv
    rcases Finset.mem_image.mp hv with ⟨x, hx, rfl⟩
    exact (mem_pcFinset _).mpr
      ⟨Int.emod_nonneg _ (by norm_num), Int.emod_lt_of_pos _ (by norm_num)⟩
  have hcard : (pcFinset.image (fun x => (x + c) % 12)).card = pcFinset.card := by
    apply Finset.card_image_of_injOn
    intro x hx y hy hxy
    have hbx := (mem_pcFinset x).mp (Finset.mem_coe.mp hx)
    have hby := (mem_pcFinset y).mp (Finset.mem_coe.mp hy)
    simp only at hxy
    omega
  exact Finset.eq_of_subset_of_card_le hsub (le_of_eq hcard.symm)

theorem row_valid {r : List Int} (hr : is_valid_tonerow r = true) {i : Nat} (hi : i < 12) :
    is_valid_tonerow ((twelvetone_matrix r).getD i []) = true := by
  cases i with
  | zero => exact hr
  | succ k =>
    have hk : k < 11 := by omega
    rw [matrix_row_succ r k hk]
    simp only [is_valid_tonerow, Bool.and_eq_true, beq_iff_eq, decide_eq_true_eq]
    constructor
    · simpa using valid_length hr
    · rw [toFinset_map_list, valid_toFinset hr, image_shift]

theorem column_eq {r : List Int} (hr : is_valid_tonerow r = true) {j : Nat} (hj : j < 12) :
    matrix_column (twelvetone_matrix r) j
      = (List.range 12).map (fun i => (r.getD j 0 + transposition_interval r i) % 12) := by
  apply List.ext_getElem
  · simp [matrix_column, twelvetone_matrix]
  · intro n h1 h2
    have hn : n < 12 := by
      simpa [matrix_column, matrix_length] using h1
    simp only [matrix_column]
    rw [List.getElem_map, List.getElem_map, List.getElem_range,
      ← List.getD_eq_getElem (twelvetone_matrix r) [] (by rw [matrix_length]; exact hn),
      matrix_entry hr hn hj]

theorem trans_bounds (r : List Int) (i : Nat) :
    0 ≤ transposition_interval r i ∧ transposition_interval r i < 12 :=
  ⟨Int.emod_nonneg _ (by norm_num), Int.emod_lt_of_pos _ (by norm_num)⟩

theorem trans_inj {r : List Int} (hr : is_valid_tonerow r = true) {i i2 : Nat}
    (hi : i < 12) (hi2 : i2 < 12)
    (h : transposition_interval r i = transposition_interval r i2) : i = i2 := by
  have hlen := valid_length hr
  have hbi := valid_bounds hr hi
  have hbi2 := valid_bounds hr hi2
  have hb0 := valid_bounds hr (show (0:Nat) < 12 by norm_num)
  simp only [transposition_interval] at h
  rw [inversion_row_getD i (by omega), inversion_row_getD i2 (by omega),
    inversion_row_getD 0 (by omega)] at h
  have hgetd : r.getD i 0 = r.getD i2 0 := by omega
  rw [List.getD_eq_getElem r 0 (show i < r.length by omega),
    List.getD_eq_getElem r 0 (show i2 < r.length by omega)] at hgetd
  exact (List.Nodup.getElem_inj_iff (valid_nodup hr)).mp hgetd

theorem toFinset_map_range (n : Nat) (f : Nat → Int) :
    ((List.range n).map f).toFinset = (Finset.range n).image f := by
  ext a
  simp

theorem col_valid {r : List Int} (hr : is_valid_tonerow r = true) {j : Nat} (hj : j < 12) :
    is_valid_tonerow (matrix_column (twelvetone_matrix r) j) = true := by
  rw [column_eq hr hj]
  simp only [is_valid_tonerow, Bool.and_eq_true, beq_iff_eq, decide_eq_true_eq]
  refine ⟨by simp, ?_⟩
  rw [toFinset_map_range]
  have hsub : (Finset.range 12).image (fun i => (r.getD j 0 + transposition_interval r i) % 12)
      ⊆ pcFinset := by
    intro v hv
    rcases Finset.mem_image.mp hv with ⟨x, hx, rfl⟩
    exact (mem_pcFinset _).mpr
      ⟨Int.emod_nonneg _ (by norm_num), Int.emod_lt_of_pos _ (by norm_num)⟩
  have hcard : ((Finset.range 12).image
      (fun i => (r.getD j 0 + transposition_interval r i) % 12)).card = 12 := by
    rw [Finset.card_image_of_injOn, Finset.card_range]
    intro x hx y hy hxy
    have hx12 : x < 12 := Finset.mem_range.mp (Finset.mem_coe.mp hx)
    have hy12 : y < 12 := Finset.mem_range.mp (Finset.mem_coe.mp hy)
    apply trans_inj hr hx12 hy12
    have hbx := trans_bounds r x
    have hby := trans_bounds r y
    simp only at hxy
    omega
  have hpc : pcFinset.card = 12 := by decide
  exact Finset.eq_of_subset_of_card_le hsub (by omega)

/-- Claim C3 (matrix construction algorithm): for every valid tone row,
row 0 of the matrix is the row verbatim, and for i in 1..11 the entry at
position j is the prime row entry transposed by the interval between the
i-th and 0-th entries of the inversion row, all mod 12. -/
theorem twelvetone_matrix_construction (r : List Int) (h : is_valid_tonerow r = true) :
    (twelvetone_matrix r).getD 0 [] = r ∧
    ∀ i : Nat, 1 ≤ i → i ≤ 11 → ∀ j : Nat, j < 12 →
      ((twelvetone_matrix r).getD i []).getD j 0
        = (r.getD j 0 + ((-(r.getD i 0)) % 12 - (-(r.getD 0 0)) % 12)) % 12 := by
  refine ⟨rfl, ?_⟩
  intro i h1 h2 j hj
  have hlen := valid_length h
  rw [matrix_entry h (by omega) hj]
  simp only [transposition_interval]
  rw [inversion_row_getD i (by omega), inversion_row_getD 0 (by omega)]
  omega

/-- Witness for claim C3 at the identity row. -/
theorem twelvetone_matrix_construction_witness :
    is_valid_tonerow identity_row = true ∧
    ((twelvetone_matrix identity_row).getD 0 [] = identity_row ∧
      ((twelvetone_matrix identity_row).getD 4 []).getD 7 0
        = (identity_row.getD 7 0
            + ((-(identity_row.getD 4 0)) % 12 - (-(identity_row.getD 0 0)) % 12)) % 12) :=
  ⟨by decide,
    (twelvetone_matrix_construction identity_row (by decide)).1,
    (twelvetone_matrix_construction identity_row (by decide)).2 4 (by decide) (by decide)
      7 (by decide)⟩

/-- Counterexample to claim C4 as stated: for the valid row starting on
pitch class 1, the top left matrix entry is 1 while the claimed value
(-row[0]) mod 12 is 11. -/
theorem matrix_first_column_counterexample :
    is_valid_tonerow shifted_row = true ∧
    ((twelvetone_matrix shifted_row).getD 0 []).getD 0 0
      ≠ (-(shifted_row.getD 0 0)) % 12 := by
  exact ⟨by decide, by decide⟩

/-- Claim C4 amended: column 0 of the matrix carries the inversion
transposed to begin on the first note of the row, entry i being
(2 * row[0] - row[i]) mod 12; this coincides with the row-0 inversion
(-row[i]) mod 12 whenever the row starts on pitch class 0. -/
theorem matrix_first_column_amended (r : List Int) (h : is_valid_tonerow r = true) :
    (∀ i : Nat, i < 12 →
        ((twelvetone_matrix r).getD i []).getD 0 0
          = (2 * r.getD 0 0 - r.getD i 0) % 12) ∧
    (r.getD 0 0 = 0 → ∀ i : Nat, i < 12 →
        ((twelvetone_matrix r).getD i []).getD 0 0 = (-(r.getD i 0)) % 12) := by
  have hlen := valid_length h
  have main : ∀ i : Nat, i < 12 →
      ((twelvetone_matrix r).getD i []).getD 0 0
        = (2 * r.getD 0 0 - r.getD i 0) % 12 := by
    intro i hi
    rw [matrix_entry h hi (by norm_num)]
    have hbi := valid_bounds h hi
    have hb0 := valid_bounds h (show (0:Nat) < 12 by norm_num)
    simp only [transposition_interval]
    rw [inversion_row_getD i (by omega), inversion_row_getD 0 (by omega)]
    omega
  refine ⟨main, fun h0 i hi => ?_⟩
  rw [main i hi, h0]
  omega

/-- Witness for the amended claim C4 at the row starting on 1. -/
theorem matrix_first_column_amended_witness :
    is_valid_tonerow shifted_row = true ∧
    ((twelvetone_matrix shifted_row).getD 5 []).getD 0 0
      = (2 * shifted_row.getD 0 0 - shifted_row.getD 5 0) % 12 :=
  ⟨by decide, (matrix_first_column_amended shifted_row (by decide)).1 5 (by decide)⟩

/-- Claim C5 (matrix permutation invariant): every row and every column
of the matrix of a valid tone row is itself a valid tone row. -/
theorem matrix_rows_columns_are_tonerows (r : List Int) (h : is_valid_tonerow r = true) :
    (∀ i : Nat, i < 12 → is_valid_tonerow ((twelvetone_matrix r).getD i []) = true) ∧
    (∀ j : Nat, j < 12 → is_valid_tonerow (matrix_column (twelvetone_matrix r) j) = true) :=
  ⟨fun _ hi => row_valid h hi, fun _ hj => col_valid h hj⟩

/-- Witness for claim C5 at the row starting on 1. -/
theorem matrix_rows_columns_are_tonerows_witness :
    is_valid_tonerow shifted_row = true ∧
    is_valid_tonerow ((twelvetone_matrix shifted_row).getD 3 []) = true ∧
    is_valid_tonerow (matrix_column (twelvetone_matrix shifted_row) 7) = true :=
  ⟨by decide,
    (matrix_rows_columns_are_tonerows shifted_row (by decide)).1 3 (by decide),
    (matrix_rows_columns_are_tonerows shifted_row (by decide)).2 7 (by decide)⟩

-- ## Detector equivalence machinery

theorem filterMap_congr_mem {α β : Type} {l : List α} {f g : α → Option β}
    (h : ∀ a ∈ l, f a = g a) : l.filterMap f = l.filterMap g := by
  induction l with
  | nil => rfl
  | cons x t ih =>
    rw [List.filterMap_cons, List.filterMap_cons, h x (by simp),
      ih (fun a ha => h a (by simp [ha]))]

theorem filterMap_eq_range {β : Type} (l : List (List Int)) (f : List Int → Option β) :
    l.filterMap f = (List.range l.length).filterMap (fun i => f (l.getD i [])) := by
  induction l with
  | nil => rfl
  | cons x t ih =>
    rw [List.length_cons, List.range_succ_eq_map, List.filterMap_cons, List.filterMap_cons,
      List.filterMap_map]
    have htail : List.filterMap ((fun i => f ((x :: t).getD i [])) ∘ Nat.succ) (List.range t.length)
        = List.filterMap (fun i => f (t.getD i [])) (List.range t.length) := by
      apply filterMap_congr_mem
      intro a ha
      simp [Function.comp, List.getD_cons_succ]
    rw [htail, ← ih]
    rfl

theorem hex_step_eq {β : Type} (A B : Finset Int) (t : Int) (s : β) :
    (if A ∩ B = ∅ then (if t = 0 then none else some s) else none)
      = (if Disjoint A B ∧ t ≠ 0 then some s else none) := by
  by_cases hd : A ∩ B = ∅ <;> by_cases ht : t = 0 <;>
    simp [hd, ht, Finset.disjoint_iff_inter_eq_empty]

theorem reverse_take6_toFinset (l : List Int) (hl : l.length = 12) :
    (l.reverse.take 6).toFinset = (l.drop 6).toFinset := by
  rw [List.take_reverse, hl]
  norm_num [List.toFinset_reverse]

theorem reverse_getD_zero (l : List Int) : l.reverse.getD 0 0 = l.getLastD 0 := by
  rw [List.getLastD_eq_getLast?, ← List.head?_reverse]
  rcases hr : l.reverse with _ | ⟨a, t⟩ <;> simp

theorem tet_match_iff (t1 t2 t3 : Finset Int) (cands : List (Finset Int)) :
    tet_match t1 t2 t3 cands = true ↔ cands.Perm [t1, t2, t3] := by
  unfold tet_match
  split_ifs with h1 h2 h3
  · rw [decide_eq_true_eq]
    obtain ⟨x, hx⟩ := List.length_eq_one.mp h3
    rw [hx]
    simp only [List.getD_cons_zero]
    constructor
    · rintro rfl
      have p1 := List.perm_cons_erase h1
      have p2 := List.perm_cons_erase h2
      refine p1.trans (List.Perm.cons t1 (p2.trans ?_))
      rw [hx]
    · intro hperm
      have e1 : (cands.erase t1).Perm [t2, t3] := by
        have := hperm.erase t1
        rw [List.erase_cons_head] at this
        exact this
      have e2 : ((cands.erase t1).erase t2).Perm [t3] := by
        have := e1.erase t2
        rw [List.erase_cons_head] at this
        exact this
      rw [hx] at e2
      have hx3 : [x] = [t3] := List.perm_singleton.mp e2
      injection hx3 with hx3a
      exact hx3a.symm
  · simp only [Bool.false_eq_true, false_iff]
    intro hperm
    apply h3
    have e1 : (cands.erase t1).Perm [t2, t3] := by
      have := hperm.erase t1
      rw [List.erase_cons_head] at this
      exact this
    have e2 : ((cands.erase t1).erase t2).Perm [t3] := by
      have := e1.erase t2
      rw [List.erase_cons_head] at this
      exact this
    simpa using e2.length_eq
  · simp only [Bool.false_eq_true, false_iff]
    intro hperm
    apply h2
    have e1 : (cands.erase t1).Perm [t2, t3] := by
      have := hperm.erase t1
      rw [List.erase_cons_head] at this
      exact this
    exact e1.mem_iff.mpr (by simp)
  · simp only [Bool.false_eq_true, false_iff]
    intro hperm
    exact h1 (hperm.mem_iff.mpr (by simp))

theorem tri_match_iff (t1 t2 t3 t4 : Finset Int) (cands : List (Finset Int)) :
    tri_match t1 t2 t3 t4 cands = true ↔ cands.Perm [t1, t2, t3, t4] := by
  unfold tri_match
  split_ifs with h1 h2 h3 h4
  · rw [decide_eq_true_eq]
    obtain ⟨x, hx⟩ := List.length_eq_one.mp h4
    rw [hx]
    simp only [List.getD_cons_zero]
    constructor
    · rintro rfl
      have p1 := List.perm_cons_erase h1
      have p2 := List.perm_cons_erase h2
      have p3 := List.perm_cons_erase h3
      refine p1.trans (List.Perm.cons t1 (p2.trans (List.Perm.cons t2 (p3.trans ?_))))
      rw [hx]
    · intro hperm
      have e1 : (cands.erase t1).Perm [t2, t3, t4] := by
        have := hperm.erase t1
        rw [List.erase_cons_head] at this
        exact this
      have e2 : ((cands.erase t1).erase t2).Perm [t3, t4] := by
        have := e1.erase t2
        rw [List.erase_cons_head] at this
        exact this
      have e3 : (((cands.erase t1).erase t2).erase t3).Perm [t4] := by
        have := e2.erase t3
        rw [List.erase_cons_head] at this
        exact this
      rw [hx] at e3
      have hx4 : [x] = [t4] := List.perm_singleton.mp e3
      injection hx4 with hx4a
      exact hx4a.symm
  · simp only [Bool.false_eq_true, false_iff]
    intro hperm
    apply h4
    have e1 : (cands.erase t1).Perm [t2, t3, t4] := by
      have := hperm.erase t1
      rw [List.erase_cons_head] at this
      exact this
    have e2 : ((cands.erase t1).erase t2).Perm [t3, t4] := by
      have := e1.erase t2
      rw [List.erase_cons_head] at this
      exact this
    have e3 : (((cands.erase t1).erase t2).erase t3).Perm [t4] := by
      have := e2.erase t3
      rw [List.erase_cons_head] at this
      exact this
    simpa using e3.length_eq
  · simp only [Bool.false_eq_true, false_iff]
    intro hperm
    apply h3
    have e1 : (cands.erase t1).Perm [t2, t3, t4] := by
      have := hperm.erase t1
      rw [List.erase_cons_head] at this
      exact this
    have e2 : ((cands.erase t1).erase t2).Perm [t3, t4] := by
      have := e1.erase t2
      rw [List.erase_cons_head] at this
      exact this
    exact e2.mem_iff.mpr (by simp)
  · simp only [Bool.false_eq_true, false_iff]
    intro hperm
    apply h2
    have e1 : (cands.erase t1).Perm [t2, t3, t4] := by
      have := hperm.erase t1
      rw [List.erase_cons_head] at this
      exact this
    exact e1.mem_iff.mpr (by simp)
  · simp only [Bool.false_eq_true, false_iff]
    intro hperm
    exact h1 (hperm.mem_iff.mpr (by simp))

theorem chord_step_excl {β : Type} (b : Bool) (P : Prop) [Decidable P] (hb : b = true ↔ P)
    (t : Int) (s : β) :
    (if b then (if t = 0 then none else some s) else none)
      = (if P ∧ t ≠ 0 then some s else none) := by
  by_cases hP : P <;> by_cases ht : t = 0 <;> simp [hb, hP, ht]

theorem chord_step_noexcl {β : Type} (b : Bool) (P : Prop) [Decidable P] (hb : b = true ↔ P)
    (s : β) :
    (if b then some s else none) = (if P then some s else none) := by
  by_cases hP : P <;> simp [hb, hP]

theorem partition4_eq (row : List Int) :
    partitionSegments 4 row
      = [(row.take 4).toFinset, ((row.drop 4).take 4).toFinset,
          ((row.drop 8).take 4).toFinset] := rfl

theorem partition3_eq (row : List Int) :
    partitionSegments 3 row
      = [(row.take 3).toFinset, ((row.drop 3).take 3).toFinset,
          ((row.drop 6).take 3).toFinset, ((row.drop 9).take 3).toFinset] := rfl

/-- Claim C1 (hexachordal detection): for every valid tone row, each of
the four hexachord detectors emits exactly the candidates whose first
six elements form a set disjoint from the first hexachord of P0 and
whose level is nonzero, the level being (first note of the candidate
form minus first note of the reference form P0, R0, I0 or RI0, plus 12)
mod 12. -/
theorem hexachordal_combinatorial_detection (r : List Int) (h : is_valid_tonerow r = true) :
    CombinatorialHexachords.prime_combinatorials (twelvetone_matrix r)
      = hexDetectSpec (twelvetone_matrix r) "P"
          (fun c => (twelvetone_matrix r).getD c [])
          (ToneRow.prime_row (twelvetone_matrix r)) ∧
    CombinatorialHexachords.retrograde_combinatorials (twelvetone_matrix r)
      = hexDetectSpec (twelvetone_matrix r) "R"
          (fun c => ((twelvetone_matrix r).getD c []).reverse)
          (ToneRow.retrograde (twelvetone_matrix r)) ∧
    CombinatorialHexachords.inversion_combinatorials (twelvetone_matrix r)
      = hexDetectSpec (twelvetone_matrix r) "I"
          (fun c => matrix_column (twelvetone_matrix r) c)
          (ToneRow.inversion (twelvetone_matrix r)) ∧
    CombinatorialHexachords.retrograde_inversion_combinatorials (twelvetone_matrix r)
      = hexDetectSpec (twelvetone_matrix r) "RI"
          (fun c => (matrix_column (twelvetone_matrix r) c).reverse)
          (ToneRow.retrograde_inversion (twelvetone_matrix r)) := by
  refine ⟨?_, ?_, ?_, ?_⟩
  · simp only [CombinatorialHexachords.prime_combinatorials, hexDetectSpec, level_of]
    rw [filterMap_eq_range, matrix_length]
    apply filterMap_congr_mem
    intro c hc
    exact hex_step_eq _ _ _ _
  · simp only [CombinatorialHexachords.retrograde_combinatorials, hexDetectSpec, level_of]
    rw [filterMap_eq_range, matrix_length]
    apply filterMap_congr_mem
    intro c hc
    have hc12 : c < 12 := List.mem_range.mp hc
    rw [reverse_take6_toFinset _ (matrix_row_length (valid_length h) hc12)]
    simp only [reverse_getD_zero]
    exact hex_step_eq _ _ _ _
  · simp only [CombinatorialHexachords.inversion_combinatorials, hexDetectSpec, level_of,
      matrix_length]
    apply filterMap_congr_mem
    intro c hc
    exact hex_step_eq _ _ _ _
  · simp only [CombinatorialHexachords.retrograde_inversion_combinatorials, hexDetectSpec,
      level_of, matrix_length]
    apply filterMap_congr_mem
    intro c hc
    exact hex_step_eq _ _ _ _

/-- Witness for claim C1 at the identity row. -/
theorem hexachordal_combinatorial_detection_witness :
    is_valid_tonerow identity_row = true ∧
    CombinatorialHexachords.prime_combinatorials (twelvetone_matrix identity_row)
      = hexDetectSpec (twelvetone_matrix identity_row) "P"
          (fun c => (twelvetone_matrix identity_row).getD c [])
          (ToneRow.prime_row (twelvetone_matrix identity_row)) :=
  ⟨by decide, (hexachordal_combinatorial_detection identity_row (by decide)).1⟩

/-- Claim C2 (tetrachordal and trichordal detection): for every valid
tone row and segment size k in 4, 3, each detector emits exactly the
candidates whose ordered partition into consecutive k-element segment
sets equals, as an unordered collection, the partition of P0, with level
computed as for hexachords; the P and R detectors exclude level 0 while
the I and RI detectors do not. -/
theorem chordal_combinatorial_detection (r : List Int) (h : is_valid_tonerow r = true) :
    CombinatorialTetrachords.prime_combinatorials (twelvetone_matrix r)
      = chordDetectSpec (twelvetone_matrix r) 4 "P"
          (fun c => (twelvetone_matrix r).getD c [])
          (ToneRow.prime_row (twelvetone_matrix r)) true ∧
    CombinatorialTetrachords.retrograde_combinatorials (twelvetone_matrix r)
      = chordDetectSpec (twelvetone_matrix r) 4 "R"
          (fun c => ((twelvetone_matrix r).getD c []).reverse)
          (ToneRow.retrograde (twelvetone_matrix r)) true ∧
    CombinatorialTetrachords.inversion_combinatorials (twelvetone_matrix r)
      = chordDetectSpec (twelvetone_matrix r) 4 "I"
          (fun c => matrix_column (twelvetone_matrix r) c)
          (ToneRow.inversion (twelvetone_matrix r)) false ∧
    CombinatorialTetrachords.retrograde_inversion_combinatorials (twelvetone_matrix r)
      = chordDetectSpec (twelvetone_matrix r) 4 "RI"
          (fun c => (matrix_column (twelvetone_matrix r) c).reverse)
          (ToneRow.retrograde_inversion (twelvetone_matrix r)) false ∧
    CombinatorialTrichords.prime_combinatorials (twelvetone_matrix r)
      = chordDetectSpec (twelvetone_matrix r) 3 "P"
          (fun c => (twelvetone_matrix r).getD c [])
          (ToneRow.prime_row (twelvetone_matrix r)) true ∧
    CombinatorialTrichords.retrograde_combinatorials (twelvetone_matrix r)
      = chordDetectSpec (twelvetone_matrix r) 3 "R"
          (fun c => ((twelvetone_matrix r).getD c []).reverse)
          (ToneRow.retrograde (twelvetone_matrix r)) true ∧
    CombinatorialTrichords.inversion_combinatorials (twelvetone_matrix r)
      = chordDetectSpec (twelvetone_matrix r) 3 "I"
          (fun c => matrix_column (twelvetone_matrix r) c)
          (ToneRow.inversion (twelvetone_matrix r)) false ∧
    CombinatorialTrichords.retrograde_inversion_combinatorials (twelvetone_matrix r)
      = chordDetectSpec (twelvetone_matrix r) 3 "RI"
          (fun c => (matrix_column (twelvetone_matrix r) c).reverse)
          (ToneRow.retrograde_inversion (twelvetone_matrix r)) false := by
  refine ⟨?_, ?_, ?_, ?_, ?_, ?_, ?_, ?_⟩
  · simp only [CombinatorialTetrachords.prime_combinatorials, chordDetectSpec, level_of]
    rw [filterMap_eq_range, matrix_length]
    apply filterMap_congr_mem
    intro c hc
    rw [partition4_eq, partition4_eq]
    simp only [true_implies]
    exact chord_step_excl _ _ ((tet_match_iff _ _ _ _).trans Multiset.coe_eq_coe.symm) _ _
  · simp only [CombinatorialTetrachords.retrograde_combinatorials, chordDetectSpec, level_of]
    rw [filterMap_eq_range, matrix_length]
    apply filterMap_congr_mem
    intro c hc
    rw [partition4_eq, partition4_eq]
    simp only [true_implies]
    exact chord_step_excl _ _ ((tet_match_iff _ _ _ _).trans Multiset.coe_eq_coe.symm) _ _
  · simp only [CombinatorialTetrachords.inversion_combinatorials, chordDetectSpec, level_of,
      matrix_length]
    apply filterMap_congr_mem
    intro c hc
    rw [partition4_eq, partition4_eq]
    simp only [Bool.false_eq_true, false_implies, and_true]
    exact chord_step_noexcl _ _ ((tet_match_iff _ _ _ _).trans Multiset.coe_eq_coe.symm) _
  · simp only [CombinatorialTetrachords.retrograde_inversion_combinatorials, chordDetectSpec,
      level_of, matrix_length]
    apply filterMap_congr_mem
    intro c hc
    rw [partition4_eq, partition4_eq]
    simp only [Bool.false_eq_true, false_implies, and_true]
    exact chord_step_noexcl _ _ ((tet_match_iff _ _ _ _).trans Multiset.coe_eq_coe.symm) _
  · simp only [CombinatorialTrichords.prime_combinatorials, chordDetectSpec, level_of]
    rw [filterMap_eq_range, matrix_length]
    apply filterMap_congr_mem
    intro c hc
    rw [partition3_eq, partition3_eq]
    simp only [true_implies]
    exact chord_step_excl _ _ ((tri_match_iff _ _ _ _ _).trans Multiset.coe_eq_coe.symm) _ _
  · simp only [CombinatorialTrichords.retrograde_combinatorials, chordDetectSpec, level_of]
    rw [filterMap_eq_range, matrix_length]
    apply filterMap_congr_mem
    intro c hc
    rw [partition3_eq, partition3_eq]
    simp only [true_implies]
    exact chord_step_excl _ _ ((tri_match_iff _ _ _ _ _).trans Multiset.coe_eq_coe.symm) _ _
  · simp only [CombinatorialTrichords.inversion_combinatorials, chordDetectSpec, level_of,
      matrix_length]
    apply filterMap_congr_mem
    intro c hc
    rw [partition3_eq, partition3_eq]
    simp only [Bool.false_eq_true, false_implies, and_true]
    exact chord_step_noexcl _ _ ((tri_match_iff _ _ _ _ _).trans Multiset.coe_eq_coe.symm) _
  · simp only [CombinatorialTrichords.retrograde_inversion_combinatorials, chordDetectSpec,
      level_of, matrix_length]
    apply filterMap_congr_mem
    intro c hc
    rw [partition3_eq, partition3_eq]
    simp only [Bool.false_eq_true, false_implies, and_true]
    exact chord_step_noexcl _ _ ((tri_match_iff _ _ _ _ _).trans Multiset.coe_eq_coe.symm) _

/-- Witness for claim C2 at the identity row. -/
theorem chordal_combinatorial_detection_witness :
    is_valid_tonerow identity_row = true ∧
    CombinatorialTetrachords.inversion_combinatorials (twelvetone_matrix identity_row)
      = chordDetectSpec (twelvetone_matrix identity_row) 4 "I"
          (fun c => matrix_column (twelvetone_matrix identity_row) c)
          (ToneRow.inversion (twelvetone_matrix identity_row)) false :=
  ⟨by decide, (chordal_combinatorial_detection identity_row (by decide)).2.2.1⟩

-- ## Enumerator lemmas

theorem removals_map_fst {α : Type} (l : List α) : (removals l).map Prod.fst = l := by
  induction l with
  | nil => rfl
  | cons x xs ih =>
    simp only [removals, List.map_cons, List.map_map]
    rw [show (Prod.fst ∘ fun p : α × List α => (p.1, x :: p.2)) = Prod.fst from rfl, ih]

theorem removals_cons_perm {α : Type} {p : α × List α} {l : List α}
    (h : p ∈ removals l) : (p.1 :: p.2).Perm l := by
  induction l generalizing p with
  | nil => simp [removals] at h
  | cons x xs ih =>
    simp only [removals, List.mem_cons, List.mem_map] at h
    rcases h with rfl | ⟨q, hq, rfl⟩
    · exact List.Perm.refl _
    · exact (List.Perm.swap x q.1 q.2).trans (List.Perm.cons x (ih hq))

theorem removals_mem_length {α : Type} {p : α × List α} {l : List α}
    (h : p ∈ removals l) : p.2.length + 1 = l.length := by
  have := (removals_cons_perm h).length_eq
  simpa using this

theorem removals_mem_sublist {α : Type} {p : α × List α} {l : List α}
    (h : p ∈ removals l) : p.2.Sublist l := by
  induction l generalizing p with
  | nil => simp [removals] at h
  | cons x xs ih =>
    simp only [removals, List.mem_cons, List.mem_map] at h
    rcases h with rfl | ⟨q, hq, rfl⟩
    · exact List.sublist_cons_self x xs
    · exact (ih hq).cons₂ x

theorem erase_mem_removals {α : Type} [DecidableEq α] {x : α} {l : List α}
    (h : x ∈ l) : (x, l.erase x) ∈ removals l := by
  induction l with
  | nil => simp at h
  | cons y ys ih =>
    by_cases hxy : y = x
    · subst hxy
      rw [List.erase_cons_head]
      simp [removals]
    · have hx : x ∈ ys := by
        rcases List.mem_cons.mp h with h1 | h2
        · exact absurd h1.symm hxy
        · exact h2
      rw [List.erase_cons_tail (by simpa using hxy)]
      simp only [removals, List.mem_cons, List.mem_map]
      exact Or.inr ⟨(x, ys.erase x), ih hx, rfl⟩

theorem perm_of_mem_lexPermsAux {α : Type} :
    ∀ (n : Nat) (l q : List α), l.length = n → q ∈ lexPermsAux n l → q.Perm l := by
  intro n
  induction n with
  | zero =>
    intro l q hl hq
    have hlnil : l = [] := List.length_eq_zero.mp hl
    subst hlnil
    simp only [lexPermsAux, List.mem_singleton] at hq
    subst hq
    exact List.Perm.refl _
  | succ n ih =>
    intro l q hl hq
    simp only [lexPermsAux, List.mem_flatMap, List.mem_map] at hq
    obtain ⟨p, hp, q2, hq2, rfl⟩ := hq
    have hlen : p.2.length = n := by
      have := removals_mem_length hp
      omega
    exact (List.Perm.cons p.1 (ih p.2 q2 hlen hq2)).trans (removals_cons_perm hp)

theorem mem_lexPermsAux_of_perm {α : Type} [DecidableEq α] :
    ∀ (n : Nat) (l q : List α), l.length = n → q.Perm l → q ∈ lexPermsAux n l := by
  intro n
  induction n with
  | zero =>
    intro l q hl hq
    have hlnil : l = [] := List.length_eq_zero.mp hl
    subst hlnil
    have : q = [] := hq.eq_nil
    subst this
    simp [lexPermsAux]
  | succ n ih =>
    intro l q hl hq
    obtain ⟨x, q2, rfl⟩ : ∃ x q2, q = x :: q2 := by
      cases q with
      | nil =>
        exfalso
        have := hq.length_eq
        simp [hl] at this
      | cons a b => exact ⟨a, b, rfl⟩
    obtain ⟨hx, hq2⟩ := List.cons_perm_iff_perm_erase.mp hq
    have hlen : (l.erase x).length = n := by
      rw [List.length_erase_of_mem hx, hl]
      omega
    simp only [lexPermsAux, List.mem_flatMap, List.mem_map]
    exact ⟨(x, l.erase x), erase_mem_removals hx, q2, ih (l.erase x) q2 hlen hq2, rfl⟩

theorem pairwise_flatMap_intro {α β : Type} (R : β → β → Prop) (f : α → List β)
    (xs : List α) (h1 : ∀ x ∈ xs, (f x).Pairwise R)
    (h2 : xs.Pairwise (fun a b => ∀ u ∈ f a, ∀ v ∈ f b, R u v)) :
    (xs.flatMap f).Pairwise R := by
  induction xs with
  | nil => exact List.Pairwise.nil
  | cons x t ih =>
    rw [List.flatMap_cons, List.pairwise_append]
    refine ⟨h1 x (by simp), ih (fun y hy => h1 y (by simp [hy])) (List.Pairwise.sublist (List.sublist_cons_self x t) h2), ?_⟩
    intro a ha b hb
    obtain ⟨y, hy, hby⟩ := List.mem_flatMap.mp hb
    rcases List.pairwise_cons.mp h2 with ⟨hhead, _⟩
    exact hhead y hy a ha b hby

theorem lex_irrefl (l : List Int) : ¬ List.Lex (fun a b : Int => a < b) l l := by
  intro hl
  induction l with
  | nil => cases hl
  | cons a t ih =>
    cases hl with
    | cons h => exact ih h
    | rel h => exact lt_irrefl a h

theorem lexPermsAux_pairwise_lex :
    ∀ (n : Nat) (l : List Int), l.length = n → l.Pairwise (fun a b => a < b) →
      (lexPermsAux n l).Pairwise (List.Lex (fun a b : Int => a < b)) := by
  intro n
  induction n with
  | zero =>
    intro l hl hs
    simp [lexPermsAux]
  | succ n ih =>
    intro l hl hs
    apply pairwise_flatMap_intro
    · intro p hp
      apply List.pairwise_map.mpr
      have hsub : p.2.Pairwise (fun a b => a < b) :=
        List.Pairwise.sublist (removals_mem_sublist hp) hs
      have hlen : p.2.length = n := by
        have := removals_mem_length hp
        omega
      exact (ih p.2 hlen hsub).imp (fun h => List.Lex.cons h)
    · have hfst : (removals l).Pairwise (fun p q => p.1 < q.1) := by
        have hcopy := hs
        rw [← removals_map_fst l] at hcopy
        exact List.pairwise_map.mp hcopy
      refine hfst.imp ?_
      intro p q hpq u hu v hv
      obtain ⟨u2, _, rfl⟩ := List.mem_map.mp hu
      obtain ⟨v2, _, rfl⟩ := List.mem_map.mp hv
      exact List.Lex.rel hpq

theorem lexPermsAux_ne_nil :
    ∀ (n : Nat) (l : List Int), l.length = n → lexPermsAux n l ≠ [] := by
  intro n
  induction n with
  | zero =>
    intro l hl
    simp [lexPermsAux]
  | succ n ih =>
    intro l hl
    cases l with
    | nil => simp at hl
    | cons x xs =>
      simp only [lexPermsAux, removals, List.flatMap_cons, ne_eq, List.append_eq_nil,
        List.map_eq_nil_iff, not_and]
      intro hmap
      exact absurd hmap (ih xs (by simpa using hl))

theorem lexPermsAux_head :
    ∀ (n : Nat) (l : List Int), l.length = n → (lexPermsAux n l).getD 0 [] = l := by
  intro n
  induction n with
  | zero =>
    intro l hl
    have : l = [] := List.length_eq_zero.mp hl
    subst this
    rfl
  | succ n ih =>
    intro l hl
    cases l with
    | nil => simp at hl
    | cons x xs =>
      have hlen : xs.length = n := by simpa using hl
      simp only [lexPermsAux, removals, List.flatMap_cons]
      rcases haux : lexPermsAux n xs with _ | ⟨q, t⟩
      · exact absurd haux (lexPermsAux_ne_nil n xs hlen)
      · have hq : q = xs := by
          have := ih xs hlen
          rw [haux] at this
          simpa using this
        subst hq
        rfl

theorem remaining_sorted : remaining_pitches.Pairwise (fun a b : Int => a < b) := by decide

theorem remaining_nodup : remaining_pitches.Nodup := by decide

theorem perms_pairwise :
    (permutations_lex remaining_pitches).Pairwise (List.Lex (fun a b : Int => a < b)) :=
  lexPermsAux_pairwise_lex _ _ rfl remaining_sorted

theorem perms_nodup : (permutations_lex remaining_pitches).Nodup := by
  have h := perms_pairwise
  apply h.imp
  intro a b hab heq
  subst heq
  exact lex_irrefl a hab

theorem perms_mem_iff (q : List Int) :
    q ∈ permutations_lex remaining_pitches ↔ q.Perm remaining_pitches :=
  ⟨perm_of_mem_lexPermsAux _ _ q rfl, mem_lexPermsAux_of_perm _ _ q rfl⟩

theorem perms_perm_permutations :
    (permutations_lex remaining_pitches).Perm remaining_pitches.permutations := by
  rw [List.perm_ext_iff_of_nodup perms_nodup (List.nodup_permutations _ remaining_nodup)]
  intro a
  rw [perms_mem_iff, List.mem_permutations]

theorem perms_length : (permutations_lex remaining_pitches).length = 39916800 := by
  rw [perms_perm_permutations.length_eq, List.length_permutations]
  decide

/-- Claim C6 (enumerator): the enumerated sequence has exactly
11 factorial = 39916800 entries, every entry is a valid tone row whose
first element is 0, the entries are pairwise distinct, and every
permutation of the remaining pitches 1..11 occurs in positions 1..11 of
some entry. -/
theorem tonerow_enumerator_properties :
    tonerows_starting_with_zero.length = 39916800 ∧
    39916800 = Nat.factorial 11 ∧
    (∀ row ∈ tonerows_starting_with_zero, is_valid_tonerow row = true ∧ row.getD 0 0 = 0) ∧
    tonerows_starting_with_zero.Nodup ∧
    (∀ q : List Int, q.Perm remaining_pitches → 0 :: q ∈ tonerows_starting_with_zero) := by
  refine ⟨?_, by decide, ?_, ?_, ?_⟩
  · simp only [tonerows_starting_with_zero, List.length_map]
    exact perms_length
  · intro row hrow
    obtain ⟨p, hp, rfl⟩ := List.mem_map.mp hrow
    have hperm : p.Perm remaining_pitches := (perms_mem_iff p).mp hp
    refine ⟨?_, rfl⟩
    simp only [is_valid_tonerow, Bool.and_eq_true, beq_iff_eq, decide_eq_true_eq]
    constructor
    · have hp11 : p.length = 11 := by
        rw [hperm.length_eq]
        rfl
      simp [hp11]
    · have htf : p.toFinset = remaining_pitches.toFinset := by
        ext a
        simp only [List.mem_toFinset]
        exact hperm.mem_iff
      rw [List.toFinset_cons, htf]
      decide
  · exact List.Nodup.map (fun a b hab => by injection hab) perms_nodup
  · intro q hq
    exact List.mem_map.mpr ⟨q, (perms_mem_iff q).mpr hq, rfl⟩

/-- Witness for claim C6: the row formed by 0 followed by the remaining
pitches in order is enumerated, valid, and starts with 0. -/
theorem tonerow_enumerator_properties_witness :
    (0 :: remaining_pitches) ∈ tonerows_starting_with_zero ∧
    is_valid_tonerow (0 :: remaining_pitches) = true ∧
    (0 :: remaining_pitches).getD 0 0 = 0 := by
  have h := tonerow_enumerator_properties
  have hmem := h.2.2.2.2 remaining_pitches (List.Perm.refl _)
  have hval := h.2.2.1 _ hmem
  exact ⟨hmem, hval.1, hval.2⟩

/-- Claim C10 (enumeration order): the first enumerated row is the
identity row and the enumerated rows are strictly increasing in the
lexicographic order of positions 1 through 11, hence also in the
lexicographic order of whole rows. -/
theorem tonerow_enumeration_lex_order :
    tonerows_starting_with_zero.getD 0 [] = identity_row ∧
    tonerows_starting_with_zero.Pairwise
      (fun a b => List.Lex (fun x y : Int => x < y) (a.drop 1) (b.drop 1)) ∧
    tonerows_starting_with_zero.Pairwise (List.Lex (fun x y : Int => x < y)) := by
  refine ⟨?_, ?_, ?_⟩
  · simp only [tonerows_starting_with_zero]
    rcases hp : permutations_lex remaining_pitches with _ | ⟨q, t⟩
    · exact absurd hp (lexPermsAux_ne_nil _ _ rfl)
    · have hq : q = remaining_pitches := by
        have hhead := lexPermsAux_head remaining_pitches.length remaining_pitches rfl
        rw [show lexPermsAux remaining_pitches.length remaining_pitches
            = permutations_lex remaining_pitches from rfl, hp] at hhead
        simpa using hhead
      subst hq
      rfl
  · simp only [tonerows_starting_with_zero]
    apply List.pairwise_map.mpr
    simpa using perms_pairwise
  · simp only [tonerows_starting_with_zero]
    apply List.pairwise_map.mpr
    exact perms_pairwise.imp (fun h => List.Lex.cons h)

/-- Claim C7 (construction validation): construction succeeds exactly
when the input has 12 elements and its value set is the set of the
twelve pitch classes; wrong length, a duplicate, or an out-of-range
value each force the InvalidRow error; on success the stored matrix is
the twelve-tone matrix of the input. -/
theorem construct_validation_iff (r : List Int) :
    ((ToneRow.construct r).isOk = true ↔ r.length = 12 ∧ r.toFinset = pcFinset) ∧
    (r.length ≠ 12 → ToneRow.construct r = Except.error "provided tone row is not valid") ∧
    (¬ r.Nodup → ToneRow.construct r = Except.error "provided tone row is not valid") ∧
    ((∃ v ∈ r, v < 0 ∨ 11 < v) →
        ToneRow.construct r = Except.error "provided tone row is not valid") ∧
    (∀ m, ToneRow.construct r = Except.ok m → m = twelvetone_matrix r) := by
  have hmain : (ToneRow.construct r).isOk = true ↔ is_valid_tonerow r = true := by
    unfold ToneRow.construct
    by_cases hv : is_valid_tonerow r = true <;> simp [hv, Except.isOk, Except.toBool]
  have hiff : is_valid_tonerow r = true ↔ (r.length = 12 ∧ r.toFinset = pcFinset) := by
    simp [is_valid_tonerow]
  refine ⟨hmain.trans hiff, ?_, ?_, ?_, ?_⟩
  · intro hlen
    have hnv : ¬ (is_valid_tonerow r = true) := fun hv => hlen (valid_length hv)
    simp [ToneRow.construct, hnv]
  · intro hnd
    have hnv : ¬ (is_valid_tonerow r = true) := fun hv => hnd (valid_nodup hv)
    simp [ToneRow.construct, hnv]
  · rintro ⟨v, hvr, hvb⟩
    have hnv : ¬ (is_valid_tonerow r = true) := by
      intro hv
      have hmem : v ∈ pcFinset := by
        rw [← valid_toFinset hv]
        exact List.mem_toFinset.mpr hvr
      have := (mem_pcFinset v).mp hmem
      omega
    simp [ToneRow.construct, hnv]
  · intro m hm
    unfold ToneRow.construct at hm
    by_cases hv : is_valid_tonerow r = true
    · rw [if_pos hv] at hm
      injection hm with hm2
      exact hm2.symm
    · rw [if_neg hv] at hm
      simp at hm

/-- Witness for claim C7: a too-short row fails and the identity row
succeeds. -/
theorem construct_validation_iff_witness :
    ToneRow.construct [0, 1] = Except.error "provided tone row is not valid" ∧
    (ToneRow.construct identity_row).isOk = true :=
  ⟨(construct_validation_iff [0, 1]).2.1 (by decide),
    ((construct_validation_iff identity_row).1).mpr ⟨by decide, by decide⟩⟩

/-- Claim C8 (transpose contract): on a valid row, the range error
occurs exactly for intervals outside -11..11; inside that range the
returned row adds the normalized interval to every entry mod 12; an
invalid input row fails with the InvalidRow error. -/
theorem transpose_row_contract (r : List Int) (h : is_valid_tonerow r = true)
    (interval : Int) :
    ((interval < -11 ∨ 11 < interval) ↔
        transpose_row r interval = Except.error "Interval size must be between -11 and 11") ∧
    (-11 ≤ interval → interval ≤ 11 →
        ∃ p : List Int × List Int, transpose_row r interval = Except.ok p ∧
          ∀ j : Nat, j < 12 →
            p.1.getD j 0 = (r.getD j 0 + ((interval % 12) + 12) % 12) % 12) ∧
    (∀ r2 : List Int, is_valid_tonerow r2 = false →
        transpose_row r2 interval = Except.error "provided tone row is not valid") := by
  refine ⟨⟨?_, ?_⟩, ?_, ?_⟩
  · intro hrange
    unfold transpose_row
    rw [if_neg (by simp [h]), if_pos hrange]
  · intro herr
    by_contra hcon
    push_neg at hcon
    unfold transpose_row at herr
    rw [if_neg (by simp [h]), if_neg (by omega)] at herr
    simp at herr
  · intro h1 h2
    refine ⟨(r.map (fun x => (x + (interval + 12) % 12) % 12),
      r.map (fun x => (x + (interval + 12) % 12) % 12)), ?_, ?_⟩
    · unfold transpose_row
      rw [if_neg (by simp [h]), if_neg (by omega)]
    · intro j hj
      have hlen := valid_length h
      rw [getD_map_eq r _ j (by omega)]
      have hconv : ((interval % 12) + 12) % 12 = (interval + 12) % 12 := by omega
      rw [hconv]
  · intro r2 hr2
    unfold transpose_row
    rw [if_pos (by simp [hr2])]

/-- Witness for claim C8 at the identity row with interval 3. -/
theorem transpose_row_contract_witness :
    ∃ p : List Int × List Int, transpose_row identity_row 3 = Except.ok p ∧
      ∀ j : Nat, j < 12 →
        p.1.getD j 0 = (identity_row.getD j 0 + (((3:Int) % 12) + 12) % 12) % 12 :=
  (transpose_row_contract identity_row (by decide) 3).2.1 (by norm_num) (by norm_num)

/-- Claim C9 fails on the code: transposing the identity row by 1 leaves
the contents of the aliased input buffer equal to the transposed values,
not to the original row, because of the in-place numpy operations. -/
theorem transpose_row_mutates_input :
    transpose_row identity_row 1
      = Except.ok ([1, 2, 3, 4, 5, 6, 7, 8, 9, 10, 11, 0],
          [1, 2, 3, 4, 5, 6, 7, 8, 9, 10, 11, 0]) ∧
    ([1, 2, 3, 4, 5, 6, 7, 8, 9, 10, 11, 0] : List Int) ≠ identity_row :=
  ⟨rfl, by decide⟩
